import Mathlib

/-!
Verification of the TG-FTIR dashboard's signal-alignment and derivative
engine: a shallow embedding in Lean 4 of the numeric callbacks of
`pages/tg_ftir_analysis.py` and `pages/tg_comparison.py`.

Numbers are modelled as exact rationals (ℚ); Python/pandas sequences as
`List ℚ`; Python column names as `List Char`; fallible library calls as
`Except String`.  Each definition is translated from the source file and
line range noted in its doc comment.
-/

namespace TGFTIR

/-- Fold-based maximum of a rational sequence, `0` on the empty list;
models `numpy`/`pandas` `.max()` on the nonempty series the pages feed it. -/
def listMax : List ℚ → ℚ
  | [] => 0
  | x :: xs => xs.foldl max x

/-- Fold-based minimum of a rational sequence, `0` on the empty list;
models `numpy`/`pandas` `.min()` on the nonempty series the pages feed it. -/
def listMin : List ℚ → ℚ
  | [] => 0
  | x :: xs => xs.foldl min x

/-- ASCII lower-casing of one character, as Python `str.lower` acts on the
ASCII column headers the pages handle: codes 65–90 are shifted by 32. -/
def lowerChar (c : Char) : Char :=
  if 65 ≤ c.toNat ∧ c.toNat ≤ 90 then Char.ofNat (c.toNat + 32) else c

/-- Lower-casing of a column name (`df.columns.str.lower()`). -/
def lowerStr (s : List Char) : List Char := s.map lowerChar

/-- Python substring containment `pat in s`: `pat` occurs contiguously in
`s` at some offset. -/
def containsSub (pat s : List Char) : Bool :=
  (List.range (s.length + 1)).any fun i => ((s.drop i).take pat.length) == pat

/-- Source `pages/tg_ftir_analysis.py`, `update_charts` lines 669–674: the
normalized mass curve.  `init_mass = masa_loss.max()`,
`fin_mass = masa_loss.min()`; if the denominator is nonzero every sample
maps to `100 * (m - fin) / (init - fin)`, otherwise the whole curve is the
zero sequence (`np.zeros_like`). -/
def normalizeMassCurve (mass : List ℚ) : List ℚ :=
  let initMass := listMax mass
  let finMass := listMin mass
  if initMass - finMass ≠ 0 then
    mass.map fun m => 100 * (m - finMass) / (initMass - finMass)
  else
    List.replicate mass.length 0

/-- Source `pages/tg_comparison.py`, `plot_multi_tg_dtg` lines 525–527 (and
`plot_multi_tg_comparison` lines 585–588): the comparison page normalizes
against the FIRST and LAST samples, `init_mass = y_data[0]`,
`fin_mass = y_data[-1]`, with the same zero-denominator guard. -/
def compNormalizeMassCurve (mass : List ℚ) : List ℚ :=
  let initMass := mass.headD 0
  let finMass := mass.getLastD 0
  if initMass - finMass ≠ 0 then
    mass.map fun m => 100 * (m - finMass) / (initMass - finMass)
  else
    List.replicate mass.length 0

/-- Source `pages/tg_ftir_analysis.py` lines 677–680 and `pages/tg_comparison.py`
line 529: min–max rescaling of the smoothed derivative to `[0, 100]`, the
zero sequence when the derivative is flat (`max - min == 0`). -/
def derivRescale (d : List ℚ) : List ℚ :=
  if listMax d - listMin d ≠ 0 then
    d.map fun v => 100 * (v - listMin d) / (listMax d - listMin d)
  else
    List.replicate d.length 0

/-- Boundary model of the external `scipy.signal.savgol_filter` call (the
library itself is not part of this repository).  Only its documented
argument validation decides any claim below: it raises `ValueError` unless
`polyorder < window_length`, and in the default `interp` mode unless
`window_length <= len(x)`.  The fitted values on valid arguments are
library numerics that no claim inspects, so the model carries the input
series as the success payload. -/
def savgolFilter (y : List ℚ) (windowLength polyorder deriv : ℕ) (delta : ℚ) :
    Except String (List ℚ) :=
  if windowLength ≤ polyorder then
    Except.error "polyorder must be less than window_length."
  else if y.length < windowLength then
    Except.error "If mode is interp, window_length must be less than or equal to the size of x."
  else
    Except.ok y

/-- Source `pages/tg_ftir_analysis.py`, `calc_smooth_derivative` lines 89–94: the
effective window length for a series of length `n` (only reached when
`n ≥ 3`): if `window_length >= n` it becomes `n - 1` when `n` is even else
`n`; then raised to `3` if below `3`; then incremented by `1` if even. -/
def ftirEffectiveWindow (n wl : ℕ) : ℕ :=
  let w1 := if wl ≥ n then (if n % 2 = 0 then n - 1 else n) else wl
  let w2 := if w1 < 3 then 3 else w1
  if w2 % 2 = 0 then w2 + 1 else w2

/-- Mean sample spacing `float(np.mean(np.diff(x))) if len(x) > 1 else 1.0`
(`pages/tg_ftir_analysis.py` line 98, `pages/tg_comparison.py` line 130). -/
def meanDiff (x : List ℚ) : ℚ :=
  if 1 < x.length then
    ((x.zip x.tail).map fun p => p.2 - p.1).sum / (x.length - 1 : ℕ)
  else 1

/-- Source `pages/tg_ftir_analysis.py`, `calc_smooth_derivative` lines 85–100:
series of fewer than 3 points are returned unchanged with an all-zero
derivative; otherwise the window is clamped by `ftirEffectiveWindow` and
`polyorder` is passed to both `savgol_filter` calls UNCHANGED. -/
def calcSmoothDerivative (x y : List ℚ) (windowLength polyorder : ℕ) :
    Except String (List ℚ × List ℚ) :=
  if y.length < 3 then
    Except.ok (y, List.replicate y.length 0)
  else
    let w := ftirEffectiveWindow y.length windowLength
    match savgolFilter y w polyorder 0 1 with
    | Except.error e => Except.error e
    | Except.ok ySmooth =>
      match savgolFilter y w polyorder 1 (meanDiff x) with
      | Except.error e => Except.error e
      | Except.ok dyDx => Except.ok (ySmooth, dyDx)

/-- Source `pages/tg_comparison.py`, `calc_smooth_derivative` lines 125–127: the
comparison page's window rule, `max(3, min(window_length, n - 1))`,
decremented by `1` when even.  (Python's `n - 1` and truncated `ℕ`
subtraction agree here: for `n = 0` both branches yield `3`.) -/
def compEffectiveWindow (n wl : ℕ) : ℕ :=
  let w := max 3 (min wl (n - 1))
  if w % 2 = 0 then w - 1 else w

/-- Source `pages/tg_comparison.py`, `calc_smooth_derivative` line 128:
`polyorder = min(polyorder, window_length - 1)`. -/
def compEffectivePoly (po w : ℕ) : ℕ := min po (w - 1)

/-- Source `pages/tg_comparison.py`, `calc_smooth_derivative` lines 120–132: no
short-series guard — the clamped window and polyorder are passed straight
to `savgol_filter`. -/
def compCalcSmoothDerivative (x y : List ℚ) (windowLength polyorder : ℕ) :
    Except String (List ℚ × List ℚ) :=
  let w := compEffectiveWindow y.length windowLength
  let po := compEffectivePoly polyorder w
  match savgolFilter y w po 0 1 with
  | Except.error e => Except.error e
  | Except.ok ySmooth =>
    match savgolFilter y w po 1 (meanDiff x) with
    | Except.error e => Except.error e
    | Except.ok dyDx => Except.ok (ySmooth, dyDx)

/-- The callback input that fired `update_charts` (`ctx.triggered_id`),
restricted to the cases lines 733–742 distinguish: the manual numeric
input, the time–temperature chart, anything else. -/
inductive ChartTrigger where
  | manualTimeInput
  | timeTempChart
  | otherInput
deriving DecidableEq

/-- The shape-boundary keys a `relayoutData` dictionary may carry
(`shapes[0].x0`, `shapes[0].x1`); `none` at the outer option models a
falsy/absent dictionary. -/
structure ShapeDrag where
  x0 : Option ℚ
  x1 : Option ℚ
deriving DecidableEq

/-- Models `np.clip(v, lo, hi) = minimum(maximum(v, lo), hi)`. -/
def clipQ (v lo hi : ℚ) : ℚ := min (max v lo) hi

/-- Whether the relayout dictionary is truthy and carries
`shapes[0].x0` or `shapes[0].x1` (line 736). -/
def shapeHasX (r : Option ShapeDrag) : Bool :=
  match r with
  | none => false
  | some s => s.x0.isSome || s.x1.isSome

/-- Models `relayout_data.get('shapes[0].x0', relayout_data.get('shapes[0].x1'))`
(line 737): `x0` preferred over `x1`. -/
def shapeX (r : Option ShapeDrag) : ℚ :=
  match r with
  | none => 0
  | some s =>
    match s.x0 with
    | some v => v
    | none => s.x1.getD 0

/-- Source `pages/tg_ftir_analysis.py`, `update_charts` lines 733–742: resolve the
selected time by trigger precedence, then clamp it into the gas-signal
time domain with `np.clip`. -/
def resolveSelectedTime (trigger : ChartTrigger) (relayout : Option ShapeDrag)
    (manualTime : Option ℚ) (gsTimes : List ℚ) : ℚ :=
  let raw :=
    if trigger = ChartTrigger.manualTimeInput ∧ manualTime.isSome then
      manualTime.getD 0
    else if trigger = ChartTrigger.timeTempChart ∧ shapeHasX relayout then
      shapeX relayout
    else if manualTime.isSome then
      manualTime.getD 0
    else
      listMin gsTimes
  clipQ raw (listMin gsTimes) (listMax gsTimes)

/-- The minimum of `|times[i] - q|` over the spectral rows
(`(df_ftir['Time (s)'] - selected_time).abs()`, line 765). -/
def minAbsDiff (times : List ℚ) (q : ℚ) : ℚ :=
  listMin (times.map fun t => |t - q|)

/-- Models pandas `.argmin()` on the absolute differences (line 765): the index of
the FIRST element achieving the minimum, per the documented numpy/pandas
argmin contract. -/
def argminAbs (times : List ℚ) (q : ℚ) : ℕ :=
  times.findIdx fun t => |t - q| == minAbsDiff times q

/-- Source `pages/tg_ftir_analysis.py`, `update_charts` lines 765–770: the matched
acquisition time and the spectral row at the argmin index. -/
def findClosestSpectrum (times : List ℚ) (rows : List (List ℚ)) (q : ℚ) :
    ℚ × List ℚ :=
  let i := argminAbs times q
  (times.getD i 0, rows.getD i [])

/-- The fixed palette `PLOTLY_COLORS` (`pages/tg_ftir_analysis.py`
lines 107–110). -/
def PLOTLY_COLORS : List String :=
  ["#636EFA", "#EF553B", "#00CC96", "#AB63FA", "#FFA15A",
   "#19D3F3", "#FF6692", "#B6E880", "#FF97FF", "#FECB52"]

/-- One pinned FTIR spectrum (`new_fixed_item`, line 859): wavenumber axis,
transmittance values, label, palette color. -/
structure FixedSpectrum where
  x : List ℚ
  y : List ℚ
  label : String
  color : String
deriving DecidableEq

/-- Source `pages/tg_ftir_analysis.py`, `manage_fixed_ftir_list` lines 854–860:
pin the current spectrum, coloring it
`PLOTLY_COLORS[len(fixed_list) % len(PLOTLY_COLORS)]` and appending it to
the list. -/
def pinSpectrum (fixedList : List FixedSpectrum) (traceX traceY : List ℚ)
    (infoText : String) : List FixedSpectrum :=
  let color := PLOTLY_COLORS.getD (fixedList.length % PLOTLY_COLORS.length) ""
  fixedList ++ [{ x := traceX, y := traceY, label := infoText, color := color }]

/-- Source `pages/tg_ftir_analysis.py`, `manage_fixed_ftir_list` line 866:
`[item for i, item in enumerate(fixed_list) if i != idx]`. -/
def unpinSpectrum (fixedList : List FixedSpectrum) (idx : ℕ) : List FixedSpectrum :=
  (fixedList.enum.filter fun p => p.1 != idx).map Prod.snd

/-- Source `pages/tg_comparison.py`, `_select_tg_columns` lines 87–117: scan the
lowercased column names; take the first containing `"sample temperature"`,
then the first containing `"program temperature"`, then the first whose
lowercased name passes
`"Unsubtracted Weight" in c or "weight" in c or "tg" in c` (the literal
with capitals included, exactly as written in the source); if nothing was
selected fall back to the first two columns unchanged. -/
def selectTgColumns (cols : List (List Char)) : List (List Char) :=
  let lowered := cols.map lowerStr
  let pick : (List Char → Bool) → List (List Char) := fun p =>
    match lowered.findIdx? p with
    | some i => [cols.getD i []]
    | none => []
  let sel :=
    pick (fun c => containsSub "sample temperature".data c)
      ++ pick (fun c => containsSub "program temperature".data c)
      ++ pick (fun c => containsSub "Unsubtracted Weight".data c
                 || containsSub "weight".data c || containsSub "tg".data c)
  if sel = [] then cols.take 2 else sel

/-- The amended column-selection rule: same scan, but the mass test keeps
only the two live patterns `"weight"` and `"tg"` — the capitalized
`"Unsubtracted Weight"` literal can never occur in a lowercased name — and
the no-match fallback is the first two columns, NOT relabeled. -/
def selectTgColumnsAmended (cols : List (List Char)) : List (List Char) :=
  let lowered := cols.map lowerStr
  let pick : (List Char → Bool) → List (List Char) := fun p =>
    match lowered.findIdx? p with
    | some i => [cols.getD i []]
    | none => []
  let sel :=
    pick (fun c => containsSub "sample temperature".data c)
      ++ pick (fun c => containsSub "program temperature".data c)
      ++ pick (fun c => containsSub "weight".data c || containsSub "tg".data c)
  if sel = [] then cols.take 2 else sel

/-- First value stored under key `k` in an association-list model of a
Python dict. -/
def lookupVis (vis : List (String × Bool)) (k : String) : Option Bool :=
  (vis.find? fun p => p.1 == k).map Prod.snd

/-- Models `vis_dict.get(k, d)`. -/
def getVisD (vis : List (String × Bool)) (k : String) (d : Bool) : Bool :=
  (lookupVis vis k).getD d

/-- Source `pages/tg_comparison.py`, `sync_vis_dict` lines 135–141: empty data →
empty dict; empty dict → every file visible; otherwise each loaded file
keeps its stored visibility, defaulting to `True`. -/
def syncVisDict (files : List String) (vis : List (String × Bool)) :
    List (String × Bool) :=
  if files = [] then []
  else if vis = [] then files.map fun f => (f, true)
  else files.map fun f => (f, getVisD vis f true)

/-- Source `pages/tg_comparison.py`, `update_visibility` lines 673–689: rebuild
the visibility dict over the loaded filenames (default `True`), then, when
the trigger was a legend-eye click on `fname` and `fname` is a loaded
file, negate that single entry. -/
def updateVisibility (files : List String) (vis : List (String × Bool))
    (trigger : Option String) : List (String × Bool) :=
  if files = [] then []
  else
    let synced := files.map fun f => (f, getVisD vis f true)
    match trigger with
    | some fname =>
      if files.contains fname then
        synced.map fun p => if p.1 = fname then (p.1, !p.2) else p
      else synced
    | none => synced

/-! ### Helper lemmas about the fold-based extrema -/

theorem foldl_min_le (xs : List ℚ) :
    ∀ a : ℚ, xs.foldl min a ≤ a ∧ ∀ x ∈ xs, xs.foldl min a ≤ x := by
  induction xs with
  | nil => intro a; exact ⟨le_refl a, by simp⟩
  | cons y ys ih =>
    intro a
    refine ⟨le_trans (ih (min a y)).1 (min_le_left a y), ?_⟩
    intro x hx
    rcases List.mem_cons.mp hx with rfl | hx
    · exact le_trans (ih (min a x)).1 (min_le_right a x)
    · exact (ih (min a y)).2 x hx

theorem le_foldl_max (xs : List ℚ) :
    ∀ a : ℚ, a ≤ xs.foldl max a ∧ ∀ x ∈ xs, x ≤ xs.foldl max a := by
  induction xs with
  | nil => intro a; exact ⟨le_refl a, by simp⟩
  | cons y ys ih =>
    intro a
    refine ⟨le_trans (le_max_left a y) (ih (max a y)).1, ?_⟩
    intro x hx
    rcases List.mem_cons.mp hx with rfl | hx
    · exact le_trans (le_max_right a x) (ih (max a x)).1
    · exact (ih (max a y)).2 x hx

theorem listMin_le_of_mem {l : List ℚ} {x : ℚ} (h : x ∈ l) : listMin l ≤ x := by
  match l with
  | [] => simp at h
  | a :: as =>
    rcases List.mem_cons.mp h with rfl | h
    · exact (foldl_min_le as x).1
    · exact (foldl_min_le as a).2 x h

theorem le_listMax_of_mem {l : List ℚ} {x : ℚ} (h : x ∈ l) : x ≤ listMax l := by
  match l with
  | [] => simp at h
  | a :: as =>
    rcases List.mem_cons.mp h with rfl | h
    · exact (le_foldl_max as x).1
    · exact (le_foldl_max as a).2 x h

theorem listMin_le_listMax {l : List ℚ} (h : l ≠ []) : listMin l ≤ listMax l := by
  match l with
  | [] => exact absurd rfl h
  | a :: as =>
    exact le_trans (listMin_le_of_mem (List.mem_cons_self a as))
      (le_listMax_of_mem (List.mem_cons_self a as))

theorem foldl_min_mem (xs : List ℚ) :
    ∀ a : ℚ, xs.foldl min a = a ∨ xs.foldl min a ∈ xs := by
  induction xs with
  | nil => intro a; left; rfl
  | cons y ys ih =>
    intro a
    rcases ih (min a y) with h | h
    · rcases min_choice a y with h2 | h2
      · left; rw [List.foldl_cons, h, h2]
      · right; rw [List.foldl_cons, h, h2]; exact List.mem_cons_self y ys
    · right; exact List.mem_cons_of_mem y h

theorem listMin_mem {l : List ℚ} (h : l ≠ []) : listMin l ∈ l := by
  match l with
  | [] => exact absurd rfl h
  | a :: as =>
    rcases foldl_min_mem as a with h2 | h2
    · rw [listMin, h2]; exact List.mem_cons_self a as
    · rw [listMin]; exact List.mem_cons_of_mem a h2

/-! ### C1: orientation of the normalized mass curve -/

/-- C1, counterexample: on the spec's own end-to-end mass trace
`[10, 8, 6, 4, 2]` the code's normalized curve is `[100, 75, 50, 25, 0]` —
the sample equal to `max(m)` maps to 100 and the sample equal to `min(m)`
maps to 0, not the other way round, so the claimed output
`[0, 25, 50, 75, 100]` is wrong. -/
theorem normalizeMassCurve_example_refutes_claim :
    normalizeMassCurve [10, 8, 6, 4, 2] = [100, 75, 50, 25, 0]
    ∧ normalizeMassCurve [10, 8, 6, 4, 2] ≠ [0, 25, 50, 75, 100] := by
  have h : normalizeMassCurve [10, 8, 6, 4, 2] = [100, 75, 50, 25, 0] := by
    norm_num [normalizeMassCurve, listMax, listMin]
  refine ⟨h, ?_⟩
  intro hcontra
  rw [h] at hcontra
  norm_num at hcontra

/-- C1 (amended): for every mass sequence with `max(m) ≠ min(m)` the
normalized curve `100 * (mass[i] - min) / (max - min)` maps the sample
equal to `max(m)` to 100 and the sample equal to `min(m)` to 0;
concretely, mass `[10, 8, 6, 4, 2]` yields `[100, 75, 50, 25, 0]`. -/
theorem normalizeMassCurve_endpoints :
    (∀ (mass : List ℚ) (i : ℕ) (hi : i < mass.length),
      listMax mass ≠ listMin mass →
        (mass[i] = listMax mass → (normalizeMassCurve mass).getD i 0 = 100)
        ∧ (mass[i] = listMin mass → (normalizeMassCurve mass).getD i 0 = 0))
    ∧ normalizeMassCurve [10, 8, 6, 4, 2] = [100, 75, 50, 25, 0] := by
  constructor
  · intro mass i hi hne
    have hd : listMax mass - listMin mass ≠ 0 := sub_ne_zero.mpr hne
    have hmap : normalizeMassCurve mass
        = mass.map fun m => 100 * (m - listMin mass) / (listMax mass - listMin mass) := by
      simp only [normalizeMassCurve]
      rw [if_pos hd]
    have hget : (normalizeMassCurve mass).getD i 0
        = 100 * (mass[i] - listMin mass) / (listMax mass - listMin mass) := by
      rw [hmap, List.getD_eq_getElem _ _ (by simpa using hi)]
      simp
    constructor
    · intro hmax
      rw [hget, hmax, mul_div_assoc, div_self hd, mul_one]
    · intro hmin
      rw [hget, hmin, sub_self, mul_zero, zero_div]
  · norm_num [normalizeMassCurve, listMax, listMin]

/-- C1 witness: the amended theorem applied at mass `[10, 8, 6, 4, 2]`,
index 0 (the maximum sample, mapped to 100). -/
theorem normalizeMassCurve_endpoints_witness :
    (0 : ℕ) < ([10, 8, 6, 4, 2] : List ℚ).length
    ∧ listMax [10, 8, 6, 4, 2] ≠ listMin [10, 8, 6, 4, 2]
    ∧ (normalizeMassCurve [10, 8, 6, 4, 2]).getD 0 0 = 100 := by
  have hi : (0 : ℕ) < ([10, 8, 6, 4, 2] : List ℚ).length := by norm_num
  have hne : listMax [10, 8, 6, 4, 2] ≠ listMin ([10, 8, 6, 4, 2] : List ℚ) := by
    norm_num [listMax, listMin]
  have hmax : ([10, 8, 6, 4, 2] : List ℚ)[0] = listMax [10, 8, 6, 4, 2] := by
    norm_num [listMax]
  exact ⟨hi, hne, (normalizeMassCurve_endpoints.1 [10, 8, 6, 4, 2] 0 hi hne).1 hmax⟩

/-! ### C6: degenerate denominators produce all-zero outputs -/

/-- C6: whenever a normalization denominator is zero (extrema coincide on
the EGA page, first and last samples coincide on the comparison page) or
the derivative range is zero, the corresponding output is the all-zero
sequence of the input's length; all three outputs always preserve length,
and the guarded branch never divides by zero. -/
theorem degenerate_inputs_zeroed :
    ∀ (mass d : List ℚ),
      (listMax mass = listMin mass →
        normalizeMassCurve mass = List.replicate mass.length 0)
      ∧ (mass.headD 0 = mass.getLastD 0 →
        compNormalizeMassCurve mass = List.replicate mass.length 0)
      ∧ (listMax d = listMin d → derivRescale d = List.replicate d.length 0)
      ∧ (normalizeMassCurve mass).length = mass.length
      ∧ (compNormalizeMassCurve mass).length = mass.length
      ∧ (derivRescale d).length = d.length := by
  intro mass d
  refine ⟨?_, ?_, ?_, ?_, ?_, ?_⟩
  · intro h
    simp only [normalizeMassCurve]
    rw [if_neg (by simp [sub_eq_zero.mpr h])]
  · intro h
    have h0 : mass.headD 0 - mass.getLastD 0 = 0 := sub_eq_zero.mpr h
    simp only [compNormalizeMassCurve]
    rw [if_neg (by simpa using h0)]
  · intro h
    simp only [derivRescale]
    rw [if_neg (by simp [sub_eq_zero.mpr h])]
  · simp only [normalizeMassCurve]
    split <;> simp
  · simp only [compNormalizeMassCurve]
    split <;> simp
  · simp only [derivRescale]
    split <;> simp

/-- C6 witness: the theorem applied to the constant mass trace `[3, 3, 3]`
and the flat derivative `[2, 2]`. -/
theorem degenerate_inputs_zeroed_witness :
    listMax [3, 3, 3] = listMin [3, 3, 3]
    ∧ normalizeMassCurve [3, 3, 3] = [0, 0, 0]
    ∧ ([3, 3, 3] : List ℚ).headD 0 = ([3, 3, 3] : List ℚ).getLastD 0
    ∧ compNormalizeMassCurve [3, 3, 3] = [0, 0, 0]
    ∧ listMax [2, 2] = listMin [2, 2]
    ∧ derivRescale [2, 2] = [0, 0] := by
  have h1 : listMax [3, 3, 3] = listMin ([3, 3, 3] : List ℚ) := by
    norm_num [listMax, listMin]
  have h2 : ([3, 3, 3] : List ℚ).headD 0 = ([3, 3, 3] : List ℚ).getLastD 0 := by
    norm_num
  have h3 : listMax [2, 2] = listMin ([2, 2] : List ℚ) := by
    norm_num [listMax, listMin]
  have h := degenerate_inputs_zeroed [3, 3, 3] [2, 2]
  refine ⟨h1, ?_, h2, ?_, h3, ?_⟩
  · rw [h.1 h1]; rfl
  · rw [h.2.1 h2]; rfl
  · rw [h.2.2.1 h3]; rfl

/-! ### C9: the extrema-based curve is bounded in [0, 100] unconditionally -/

/-- C9: for every mass sequence with `max ≠ min` — monotone or not — every
element of the extrema-based normalized curve lies in `[0, 100]`; the code
normalizes against the extrema rather than the first/last samples, so the
bound needs no monotonicity assumption. -/
theorem normalizeMassCurve_bounded :
    ∀ (mass : List ℚ), listMax mass ≠ listMin mass →
      ∀ q ∈ normalizeMassCurve mass, 0 ≤ q ∧ q ≤ 100 := by
  intro mass hne q hq
  have hd : listMax mass - listMin mass ≠ 0 := sub_ne_zero.mpr hne
  have hmap : normalizeMassCurve mass
      = mass.map fun m => 100 * (m - listMin mass) / (listMax mass - listMin mass) := by
    simp only [normalizeMassCurve]
    rw [if_pos hd]
  rw [hmap] at hq
  obtain ⟨m, hm, rfl⟩ := List.mem_map.mp hq
  have h1 : listMin mass ≤ m := listMin_le_of_mem hm
  have h2 : m ≤ listMax mass := le_listMax_of_mem hm
  have hpos : 0 < listMax mass - listMin mass := by
    have hle : listMin mass ≤ listMax mass := le_trans h1 h2
    exact sub_pos.mpr (lt_of_le_of_ne hle (Ne.symm hne))
  constructor
  · apply div_nonneg _ (le_of_lt hpos)
    nlinarith
  · rw [div_le_iff₀ hpos]
    nlinarith

/-- C9 witness: the theorem applied to the non-monotonic trace `[3, 7, 1]`,
at its member value 100. -/
theorem normalizeMassCurve_bounded_witness :
    listMax [3, 7, 1] ≠ listMin [3, 7, 1]
    ∧ (100 : ℚ) ∈ normalizeMassCurve [3, 7, 1]
    ∧ (0 ≤ (100 : ℚ) ∧ (100 : ℚ) ≤ 100) := by
  have hne : listMax [3, 7, 1] ≠ listMin ([3, 7, 1] : List ℚ) := by
    norm_num [listMax, listMin]
  have hval : normalizeMassCurve [3, 7, 1] = [100 / 3, 100, 0] := by
    norm_num [normalizeMassCurve, listMax, listMin]
  have hmem : (100 : ℚ) ∈ normalizeMassCurve [3, 7, 1] := by
    rw [hval]; simp
  exact ⟨hne, hmem, normalizeMassCurve_bounded [3, 7, 1] hne 100 hmem⟩

/-! ### C3: the short-series guard -/

/-- C3: the EGA page's `calc_smooth_derivative` returns any series of
fewer than 3 points unchanged with an all-zero derivative; but the
comparison page's variant of the same function has no such guard — on the
length-2 series `[7, 9]` it clamps the window to `3 > len(y)` and the
`savgol_filter` call fails, contradicting both the claim and the
function's own docstring promise of a valid window. -/
theorem calcSmoothDerivative_short_series :
    (∀ (x y : List ℚ) (wl po : ℕ), y.length < 3 →
      calcSmoothDerivative x y wl po = Except.ok (y, List.replicate y.length 0))
    ∧ calcSmoothDerivative [0, 1] [7, 9] 21 2 = Except.ok ([7, 9], [0, 0])
    ∧ compEffectiveWindow ([(7 : ℚ), 9].length) 21 = 3
    ∧ compCalcSmoothDerivative [0, 1] [7, 9] 21 2
        = Except.error "If mode is interp, window_length must be less than or equal to the size of x." := by
  refine ⟨?_, ?_, ?_, ?_⟩
  · intro x y wl po h
    simp [calcSmoothDerivative, h]
  · rfl
  · rfl
  · rfl

/-- C3 witness: the guard theorem applied at the length-2 series `[7, 9]`. -/
theorem calcSmoothDerivative_short_series_witness :
    ([(7 : ℚ), 9].length < 3)
    ∧ calcSmoothDerivative [0, 1] [7, 9] 21 2 = Except.ok ([7, 9], [0, 0]) := by
  refine ⟨by norm_num, ?_⟩
  exact calcSmoothDerivative_short_series.1 [0, 1] [7, 9] 21 2 (by norm_num)

/-! ### C4: window-length and polyorder clamping -/

/-- C4, counterexample: the EGA page does NOT clamp `polyorder` below the
effective window — with a length-3 series and `polyorder = 5` the
effective window is 3 and the Savitzky–Golay call fails instead of
fitting with a reduced order; moreover the comparison page uses a
different window rule (`n = 11`, `window = 21` gives 9 there but 11 under
the claimed rule). -/
theorem savgol_clamp_counterexample :
    ftirEffectiveWindow 3 21 = 3
    ∧ calcSmoothDerivative [0, 1, 2] [5, 5, 5] 21 5
        = Except.error "polyorder must be less than window_length."
    ∧ compEffectiveWindow 11 21 = 9
    ∧ ftirEffectiveWindow 11 21 = 11 := by
  exact ⟨by decide, rfl, by decide, by decide⟩

/-- C4 (amended): for every series length `n ≥ 3` and all arguments, the
EGA page's effective window follows the claimed clamping rule and is odd,
at least 3 and at most `n`, but `polyorder` is passed through UNCHANGED —
the fits succeed exactly when `polyorder` is already below the effective
window; the `min(polyorder, window - 1) < window` clamping happens only in
the comparison page's variant, whose window rule is instead
`max(3, min(windowLength, n - 1))` decremented by 1 when even (also odd,
at least 3 and at most `n`). -/
theorem savgol_window_clamping :
    ∀ (n wl po : ℕ), 3 ≤ n →
      ftirEffectiveWindow n wl % 2 = 1
      ∧ 3 ≤ ftirEffectiveWindow n wl
      ∧ ftirEffectiveWindow n wl ≤ n
      ∧ compEffectiveWindow n wl % 2 = 1
      ∧ 3 ≤ compEffectiveWindow n wl
      ∧ compEffectiveWindow n wl ≤ n
      ∧ compEffectivePoly po (compEffectiveWindow n wl) < compEffectiveWindow n wl
      ∧ (∀ (x y : List ℚ), y.length = n →
          ((calcSmoothDerivative x y wl po).isOk = true ↔ po < ftirEffectiveWindow n wl)) := by
  intro n wl po h3
  have hf : ftirEffectiveWindow n wl % 2 = 1 ∧ 3 ≤ ftirEffectiveWindow n wl
      ∧ ftirEffectiveWindow n wl ≤ n := by
    simp only [ftirEffectiveWindow]
    split_ifs <;> simp_all <;> omega
  have hc : compEffectiveWindow n wl % 2 = 1 ∧ 3 ≤ compEffectiveWindow n wl
      ∧ compEffectiveWindow n wl ≤ n := by
    simp only [compEffectiveWindow]
    split_ifs <;> omega
  have hpo : compEffectivePoly po (compEffectiveWindow n wl) < compEffectiveWindow n wl := by
    have h := hc.2.1
    simp only [compEffectivePoly]
    omega
  refine ⟨hf.1, hf.2.1, hf.2.2, hc.1, hc.2.1, hc.2.2, hpo, ?_⟩
  intro x y hlen
  have hng : ¬ n < 3 := by omega
  simp only [calcSmoothDerivative, hlen, if_neg hng]
  by_cases hpw : po < ftirEffectiveWindow n wl
  · have h1 : ¬ (ftirEffectiveWindow n wl ≤ po) := by omega
    have h2 : ¬ (n < ftirEffectiveWindow n wl) := by
      have := hf.2.2
      omega
    simp [savgolFilter, hlen, h1, h2, hpw, Except.isOk, Except.toBool]
  · have h1 : ftirEffectiveWindow n wl ≤ po := by omega
    simp [savgolFilter, hlen, h1, hpw, Except.isOk, Except.toBool]

/-- C4 witness: the amended theorem at `n = 5`, `windowLength = 21`,
`polyorder = 2` and the concrete series `[9, 8, 7, 6, 5]`. -/
theorem savgol_window_clamping_witness :
    3 ≤ 5
    ∧ ftirEffectiveWindow 5 21 % 2 = 1
    ∧ 3 ≤ ftirEffectiveWindow 5 21
    ∧ ftirEffectiveWindow 5 21 ≤ 5
    ∧ compEffectivePoly 2 (compEffectiveWindow 5 21) < compEffectiveWindow 5 21
    ∧ ([(9 : ℚ), 8, 7, 6, 5].length = 5)
    ∧ (calcSmoothDerivative [0, 1, 2, 3, 4] [9, 8, 7, 6, 5] 21 2).isOk = true := by
  have h := savgol_window_clamping 5 21 2 (by norm_num)
  have hlen : ([(9 : ℚ), 8, 7, 6, 5].length = 5) := by norm_num
  refine ⟨by norm_num, h.1, h.2.1, h.2.2.1, h.2.2.2.2.2.2.1, hlen, ?_⟩
  refine (h.2.2.2.2.2.2.2 [0, 1, 2, 3, 4] [9, 8, 7, 6, 5] hlen).mpr ?_
  have h2 := h.2.1
  omega

/-! ### C2: selected-time precedence and clamping -/

/-- C2: the selected time follows the four-step precedence — a manual-input
trigger carrying a value wins; else a chart drag carrying `shapes[0].x0`
or `shapes[0].x1` (preferring `x0`) wins; else a previously entered manual
value wins; else the minimum of the gas-signal time domain — and the
result is always clamped into `[min(domain), max(domain)]`; for domain
`[5, 50]`, candidate `-3` resolves to `5` and candidate `999` to `50`. -/
theorem resolveSelectedTime_precedence :
    ∀ (r : Option ShapeDrag) (mt : Option ℚ) (ts : List ℚ), ts ≠ [] →
      (∀ v : ℚ, resolveSelectedTime ChartTrigger.manualTimeInput r (some v) ts
          = clipQ v (listMin ts) (listMax ts))
      ∧ (∀ (s : ShapeDrag) (a : ℚ), s.x0 = some a →
          resolveSelectedTime ChartTrigger.timeTempChart (some s) mt ts
            = clipQ a (listMin ts) (listMax ts))
      ∧ (∀ (s : ShapeDrag) (b : ℚ), s.x0 = none → s.x1 = some b →
          resolveSelectedTime ChartTrigger.timeTempChart (some s) mt ts
            = clipQ b (listMin ts) (listMax ts))
      ∧ (∀ v : ℚ, resolveSelectedTime ChartTrigger.otherInput r (some v) ts
          = clipQ v (listMin ts) (listMax ts))
      ∧ (∀ v : ℚ, resolveSelectedTime ChartTrigger.timeTempChart none (some v) ts
          = clipQ v (listMin ts) (listMax ts))
      ∧ resolveSelectedTime ChartTrigger.otherInput r none ts = listMin ts
      ∧ (∀ (trig : ChartTrigger) (rl : Option ShapeDrag) (m : Option ℚ),
          listMin ts ≤ resolveSelectedTime trig rl m ts
          ∧ resolveSelectedTime trig rl m ts ≤ listMax ts)
      ∧ resolveSelectedTime ChartTrigger.manualTimeInput none (some (-3)) [5, 50] = 5
      ∧ resolveSelectedTime ChartTrigger.manualTimeInput none (some 999) [5, 50] = 50 := by
  intro r mt ts hne
  have hlohi : listMin ts ≤ listMax ts := listMin_le_listMax hne
  have hclip : ∀ v : ℚ, listMin ts ≤ clipQ v (listMin ts) (listMax ts)
      ∧ clipQ v (listMin ts) (listMax ts) ≤ listMax ts := by
    intro v
    exact ⟨le_min (le_max_right v (listMin ts)) hlohi, min_le_right _ _⟩
  refine ⟨?_, ?_, ?_, ?_, ?_, ?_, ?_, ?_, ?_⟩
  · intro v
    simp [resolveSelectedTime]
  · intro s a hx0
    simp [resolveSelectedTime, shapeHasX, shapeX, hx0]
  · intro s b hx0 hx1
    simp [resolveSelectedTime, shapeHasX, shapeX, hx0, hx1]
  · intro v
    simp [resolveSelectedTime]
  · intro v
    simp [resolveSelectedTime, shapeHasX]
  · simp [resolveSelectedTime, clipQ, max_self, min_eq_left hlohi]
  · intro trig rl m
    simp only [resolveSelectedTime]
    exact hclip _
  · norm_num [resolveSelectedTime, clipQ, listMin, listMax]
  · norm_num [resolveSelectedTime, clipQ, listMin, listMax]

/-- C2 witness: the precedence theorem applied at domain `[5, 50]`,
yielding the two concrete clamps. -/
theorem resolveSelectedTime_precedence_witness :
    ([5, 50] : List ℚ) ≠ []
    ∧ resolveSelectedTime ChartTrigger.manualTimeInput none (some (-3)) [5, 50] = 5
    ∧ resolveSelectedTime ChartTrigger.manualTimeInput none (some 999) [5, 50] = 50 := by
  have h := resolveSelectedTime_precedence none none [5, 50] (by simp)
  exact ⟨by simp, h.2.2.2.2.2.2.2.1, h.2.2.2.2.2.2.2.2⟩

/-! ### C5: nearest-spectrum lookup -/

/-- C5: on a nonempty time axis the argmin index is in range, achieves the
minimal absolute difference to the query, and every earlier index has a
strictly larger difference (first-index tie-break); times `[0, 10, 20]`
with query `14` select the row at time `10`, and the equidistant query
`15` also selects the row at time `10`. -/
theorem findClosestSpectrum_argmin :
    (∀ (times : List ℚ) (q : ℚ), times ≠ [] →
      ∃ hi : argminAbs times q < times.length,
        (∀ (j : ℕ) (hj : j < times.length),
          |times.get ⟨argminAbs times q, hi⟩ - q| ≤ |times.get ⟨j, hj⟩ - q|)
        ∧ ∀ (j : ℕ) (hj : j < times.length), j < argminAbs times q →
            |times.get ⟨argminAbs times q, hi⟩ - q| < |times.get ⟨j, hj⟩ - q|)
    ∧ argminAbs [0, 10, 20] 14 = 1
    ∧ findClosestSpectrum [0, 10, 20] [[1], [2], [3]] 14 = (10, [2])
    ∧ argminAbs [0, 10, 20] 15 = 1
    ∧ findClosestSpectrum [0, 10, 20] [[1], [2], [3]] 15 = (10, [2]) := by
  have h14 : ((14 : ℚ) == 4) = false := by simp [beq_eq_false_iff_ne]
  have h15 : ((15 : ℚ) == 5) = false := by simp [beq_eq_false_iff_ne]
  refine ⟨?_, ?_, ?_, ?_, ?_⟩
  · intro times q hne
    have hmapne : times.map (fun t => |t - q|) ≠ [] := by simpa using hne
    obtain ⟨t0, ht0, ht0eq⟩ := List.mem_map.mp (listMin_mem hmapne)
    have hex : ∃ x ∈ times, (fun t => |t - q| == minAbsDiff times q) x = true :=
      ⟨t0, ht0, by simpa [beq_iff_eq, minAbsDiff] using ht0eq⟩
    have hi : argminAbs times q < times.length := by
      simpa [argminAbs] using List.findIdx_lt_length_of_exists hex
    have hgetmin : |times.get ⟨argminAbs times q, hi⟩ - q| = minAbsDiff times q := by
      have hw : times.findIdx (fun t => |t - q| == minAbsDiff times q)
          < times.length := by
        simpa [argminAbs] using hi
      have hp := @List.findIdx_getElem _ (fun t => |t - q| == minAbsDiff times q) times hw
      simpa [argminAbs, beq_iff_eq] using hp
    refine ⟨hi, ?_, ?_⟩
    · intro j hj
      rw [hgetmin]
      exact listMin_le_of_mem (List.mem_map_of_mem _ (times.get_mem j hj))
    · intro j hj hlt
      have hlt2 : j < times.findIdx fun t => |t - q| == minAbsDiff times q := by
        simpa [argminAbs] using hlt
      have hnot := List.not_of_lt_findIdx hlt2
      have hneq : |times.get ⟨j, hj⟩ - q| ≠ minAbsDiff times q := by
        simpa [beq_iff_eq] using hnot
      have hge : minAbsDiff times q ≤ |times.get ⟨j, hj⟩ - q| :=
        listMin_le_of_mem (List.mem_map_of_mem _ (times.get_mem j hj))
      rw [hgetmin]
      exact lt_of_le_of_ne hge (Ne.symm hneq)
  · norm_num [argminAbs, minAbsDiff, listMin, List.findIdx_cons, h14]
  · norm_num [findClosestSpectrum, argminAbs, minAbsDiff, listMin, List.findIdx_cons, h14]
  · norm_num [argminAbs, minAbsDiff, listMin, List.findIdx_cons, h15]
  · norm_num [findClosestSpectrum, argminAbs, minAbsDiff, listMin, List.findIdx_cons, h15]

/-- C5 witness: the argmin theorem applied at times `[0, 10, 20]` and
query `14`. -/
theorem findClosestSpectrum_argmin_witness :
    ([0, 10, 20] : List ℚ) ≠ []
    ∧ argminAbs [0, 10, 20] 14 < ([0, 10, 20] : List ℚ).length := by
  refine ⟨by simp, ?_⟩
  obtain ⟨hi, -, -⟩ := findClosestSpectrum_argmin.1 [0, 10, 20] 14 (by simp)
  exact hi

/-! ### C7: pinning and unpinning spectra -/

theorem filter_ne_enumFrom_of_lt (l : List FixedSpectrum) :
    ∀ (n idx : ℕ), idx < n →
      ((List.enumFrom n l).filter fun p => p.1 != idx).map Prod.snd = l := by
  induction l with
  | nil => intro n idx h; rfl
  | cons a as ih =>
    intro n idx h
    have hcond : (n != idx) = true := by simp; omega
    simp only [List.enumFrom, List.filter_cons, hcond, if_true, List.map_cons]
    rw [ih (n + 1) idx (by omega)]

theorem filter_ne_enumFrom (l : List FixedSpectrum) :
    ∀ (n idx : ℕ), n ≤ idx →
      ((List.enumFrom n l).filter fun p => p.1 != idx).map Prod.snd
        = l.take (idx - n) ++ l.drop (idx - n + 1) := by
  induction l with
  | nil => intro n idx h; simp
  | cons a as ih =>
    intro n idx h
    rcases eq_or_lt_of_le h with rfl | hlt
    · have hcond : (n != n) = false := by simp
      simp only [List.enumFrom, List.filter_cons, hcond, if_false, Bool.false_eq_true]
      rw [filter_ne_enumFrom_of_lt as (n + 1) n (by omega)]
      simp
    · have hcond : (n != idx) = true := by simp; omega
      simp only [List.enumFrom, List.filter_cons, hcond, if_true, List.map_cons]
      rw [ih (n + 1) idx (by omega), show idx - n = (idx - (n + 1)) + 1 by omega]
      simp

/-- C7: `pinSpectrum` appends exactly one snapshot colored
`PLOTLY_COLORS[len(pins) % 10]`, leaving every prior entry unchanged;
`unpinSpectrum pins idx` is the old list with exactly the entry at `idx`
removed, all other entries (and hence their colors) kept in order;
concretely, pinning 11 times colors pin #1 and pin #11 both `"#636EFA"`,
and unpinning pin #3 leaves the other ten colors untouched. -/
theorem pin_unpin_spec :
    (∀ (pins : List FixedSpectrum) (xs ys : List ℚ) (lbl : String),
      pinSpectrum pins xs ys lbl
          = pins ++ [⟨xs, ys, lbl, PLOTLY_COLORS.getD (pins.length % PLOTLY_COLORS.length) ""⟩]
        ∧ (pinSpectrum pins xs ys lbl).take pins.length = pins
        ∧ (pinSpectrum pins xs ys lbl).length = pins.length + 1)
    ∧ (∀ (pins : List FixedSpectrum) (idx : ℕ),
        unpinSpectrum pins idx = pins.take idx ++ pins.drop (idx + 1))
    ∧ ((List.range 11).foldl (fun acc _ => pinSpectrum acc [] [] "s") []).map
        FixedSpectrum.color = PLOTLY_COLORS ++ ["#636EFA"]
    ∧ (unpinSpectrum
        ((List.range 11).foldl (fun acc _ => pinSpectrum acc [] [] "s") []) 2).map
        FixedSpectrum.color
      = ["#636EFA", "#EF553B", "#AB63FA", "#FFA15A", "#19D3F3",
         "#FF6692", "#B6E880", "#FF97FF", "#FECB52", "#636EFA"] := by
  refine ⟨?_, ?_, ?_, ?_⟩
  · intro pins xs ys lbl
    exact ⟨rfl, List.take_left pins _, by simp [pinSpectrum]⟩
  · intro pins idx
    have h := filter_ne_enumFrom pins 0 idx (Nat.zero_le idx)
    simpa [unpinSpectrum, List.enum] using h
  · rfl
  · rfl

/-! ### C8: column-detection heuristic -/

/-- C8, counterexample: with columns `["time", "tg signal",
"unsubtracted weight"]` the code selects `"tg signal"` — the first column
(in column order) matching ANY mass pattern — not the claimed
pattern-priority winner `"unsubtracted weight"`. -/
theorem selectTgColumns_counterexample :
    selectTgColumns ["time".data, "tg signal".data, "unsubtracted weight".data]
      = ["tg signal".data]
    ∧ "tg signal".data ≠ "unsubtracted weight".data := by
  exact ⟨by decide, by decide⟩

theorem toNat_ofNat_shift : ∀ n : ℕ, 65 ≤ n → n ≤ 90 →
    (Char.ofNat (n + 32)).toNat = n + 32 := by
  intro n h1 h2
  interval_cases n <;> decide

theorem lowerChar_not_upper (c : Char) :
    ¬ (65 ≤ (lowerChar c).toNat ∧ (lowerChar c).toNat ≤ 90) := by
  unfold lowerChar
  split_ifs with h
  · rw [toNat_ofNat_shift c.toNat h.1 h.2]
    omega
  · exact h

theorem mem_of_containsSub {pat l : List Char} {c : Char}
    (h : containsSub pat l = true) (hc : c ∈ pat) : c ∈ l := by
  simp only [containsSub, List.any_eq_true] at h
  obtain ⟨i, hi, heq⟩ := h
  have hpat : (l.drop i).take pat.length = pat := by simpa [beq_iff_eq] using heq
  rw [← hpat] at hc
  exact List.mem_of_mem_drop (List.mem_of_mem_take hc)

/-- The capitalized literal `"Unsubtracted Weight"` can never occur inside
a lowercased column name: lower-casing leaves no character in the
uppercase ASCII band, but the pattern contains `U`. -/
theorem deadTest_false (s : List Char) :
    containsSub "Unsubtracted Weight".data (lowerStr s) = false := by
  by_contra h
  have htrue : containsSub "Unsubtracted Weight".data (lowerStr s) = true := by
    simpa using h
  have hU : ('U' : Char) ∈ "Unsubtracted Weight".data := by decide
  obtain ⟨c, hc, hlc⟩ := List.mem_map.mp (mem_of_containsSub htrue hU)
  have hno := lowerChar_not_upper c
  rw [hlc] at hno
  exact hno (by decide)

theorem findIdxOpt_congr (l : List (List Char)) (p q : List Char → Bool)
    (h : ∀ x ∈ l, p x = q x) : ∀ i : ℕ, l.findIdx? p i = l.findIdx? q i := by
  induction l with
  | nil => intro i; rfl
  | cons a as ih =>
    intro i
    rw [show (a :: as).findIdx? p i
        = if p a then some i else as.findIdx? p (i + 1) from rfl]
    rw [show (a :: as).findIdx? q i
        = if q a then some i else as.findIdx? q (i + 1) from rfl]
    rw [h a (List.mem_cons_self a as),
      ih (fun x hx => h x (List.mem_cons_of_mem a hx)) (i + 1)]

/-- C8 (amended): `_select_tg_columns` selects, in order, the first column
whose lowercased name contains `"sample temperature"`, the first containing
`"program temperature"`, and the first column IN COLUMN ORDER whose
lowercased name contains `"weight"` or `"tg"` (the source's capitalized
`"Unsubtracted Weight"` test is dead against lowercased names, and a
lowercased `"unsubtracted weight"` header still matches via `"weight"`);
when nothing matches it falls back to the first two columns, unrelabeled. -/
theorem selectTgColumns_eq_amended :
    ∀ cols : List (List Char), selectTgColumns cols = selectTgColumnsAmended cols := by
  intro cols
  have hidx : (cols.map lowerStr).findIdx?
      (fun c => containsSub "Unsubtracted Weight".data c
        || containsSub "weight".data c || containsSub "tg".data c) 0
      = (cols.map lowerStr).findIdx?
        (fun c => containsSub "weight".data c || containsSub "tg".data c) 0 := by
    apply findIdxOpt_congr
    intro x hx
    obtain ⟨t, ht, rfl⟩ := List.mem_map.mp hx
    rw [deadTest_false t, Bool.false_or]
  simp only [selectTgColumns, selectTgColumnsAmended]
  rw [hidx]

/-! ### C10: legend-visibility dictionary invariants -/

theorem lookupVis_map (files : List String) (v : String → Bool) (g : String) :
    lookupVis (files.map fun f => (f, v f)) g
      = if g ∈ files then some (v g) else none := by
  induction files with
  | nil => simp [lookupVis]
  | cons f fs ih =>
    by_cases h : f = g
    · subst h
      simp [lookupVis, List.find?_cons_of_pos]
    · simp only [lookupVis, List.map_cons] at ih ⊢
      rw [List.find?_cons_of_neg _ (by simp [h])]
      rw [ih]
      have hiff : (g = f ∨ g ∈ fs) ↔ g ∈ fs := or_iff_right fun hgf => h hgf.symm
      simp only [List.mem_cons, hiff]

theorem updateVisibility_none_eq (files : List String) (vis : List (String × Bool)) :
    updateVisibility files vis none = files.map fun f => (f, getVisD vis f true) := by
  by_cases h : files = []
  · subst h; rfl
  · simp [updateVisibility, h]

theorem updateVisibility_skip_eq (files : List String) (vis : List (String × Bool))
    (fname : String) (hmem : fname ∉ files) :
    updateVisibility files vis (some fname)
      = files.map fun f => (f, getVisD vis f true) := by
  by_cases hnil : files = []
  · subst hnil; rfl
  · have hcont : files.contains fname = false := by simpa using hmem
    simp [updateVisibility, hnil, hcont]
    intro hmem2
    exact absurd hmem2 hmem

theorem updateVisibility_toggle_eq (files : List String) (vis : List (String × Bool))
    (fname : String) (hmem : fname ∈ files) :
    updateVisibility files vis (some fname)
      = files.map fun f =>
          (f, if f = fname then !(getVisD vis f true) else getVisD vis f true) := by
  have hne : files ≠ [] := by
    intro h; subst h; simp at hmem
  have hcont : files.contains fname = true := by simpa using hmem
  simp only [updateVisibility, if_neg hne, hcont, if_true]
  rw [List.map_map]
  apply List.map_congr_left
  intro f hf
  by_cases h : f = fname <;> simp [Function.comp, h]

/-- C10: after every recomputation the visibility dictionary's keys are
exactly the loaded filenames in order (for both `update_visibility` and
`sync_vis_dict`), a filename absent from the stored dictionary defaults to
visible, and a legend-eye toggle on one file negates that file's entry
while every other loaded file keeps its stored value. -/
theorem visibility_dict_invariants :
    ∀ (files : List String) (vis : List (String × Bool)) (trigger : Option String),
      ((updateVisibility files vis trigger).map Prod.fst = files)
      ∧ ((syncVisDict files vis).map Prod.fst = files)
      ∧ (∀ f : String, f ∈ files → lookupVis vis f = none →
          lookupVis (updateVisibility files vis none) f = some true)
      ∧ (∀ f : String, f ∈ files →
          lookupVis (updateVisibility files vis (some f)) f
            = some (! getVisD vis f true))
      ∧ (∀ f g : String, f ∈ files → g ∈ files → g ≠ f →
          lookupVis (updateVisibility files vis (some f)) g
            = some (getVisD vis g true)) := by
  intro files vis trigger
  have hfst : ∀ w : String → Bool, (files.map fun f => (f, w f)).map Prod.fst = files := by
    intro w
    rw [List.map_map]
    have hid : (Prod.fst ∘ fun f : String => (f, w f)) = id := rfl
    rw [hid, List.map_id]
  refine ⟨?_, ?_, ?_, ?_, ?_⟩
  · match trigger with
    | none => rw [updateVisibility_none_eq]; exact hfst _
    | some fname =>
      by_cases hmem : fname ∈ files
      · rw [updateVisibility_toggle_eq files vis fname hmem]; exact hfst _
      · rw [updateVisibility_skip_eq files vis fname hmem]; exact hfst _
  · by_cases h : files = []
    · subst h; rfl
    · by_cases hv : vis = []
      · simp only [syncVisDict, if_neg h, if_pos hv]
        exact hfst _
      · simp only [syncVisDict, if_neg h, if_neg hv]
        exact hfst _
  · intro f hf hnone
    rw [updateVisibility_none_eq, lookupVis_map, if_pos hf, getVisD, hnone]
    rfl
  · intro f hf
    rw [updateVisibility_toggle_eq files vis f hf, lookupVis_map, if_pos hf]
    simp
  · intro f g hf hg hgf
    rw [updateVisibility_toggle_eq files vis f hf, lookupVis_map, if_pos hg,
      if_neg hgf]

/-- C10 witness: the invariants applied to loaded files
`["a.csv", "b.csv"]` with stored dictionary `[("a.csv", false)]` and a
legend-eye toggle on `"a.csv"`. -/
theorem visibility_dict_invariants_witness :
    ("a.csv" ∈ ["a.csv", "b.csv"])
    ∧ ("b.csv" ∈ ["a.csv", "b.csv"])
    ∧ lookupVis [("a.csv", false)] "b.csv" = none
    ∧ lookupVis
        (updateVisibility ["a.csv", "b.csv"] [("a.csv", false)] none) "b.csv"
      = some true
    ∧ lookupVis
        (updateVisibility ["a.csv", "b.csv"] [("a.csv", false)] (some "a.csv")) "a.csv"
      = some (! getVisD [("a.csv", false)] "a.csv" true)
    ∧ lookupVis
        (updateVisibility ["a.csv", "b.csv"] [("a.csv", false)] (some "a.csv")) "b.csv"
      = some (getVisD [("a.csv", false)] "b.csv" true) := by
  have hfa : "a.csv" ∈ ["a.csv", "b.csv"] := by simp
  have hfb : "b.csv" ∈ ["a.csv", "b.csv"] := by simp
  have hnone : lookupVis [("a.csv", false)] "b.csv" = none := by decide
  have h := visibility_dict_invariants ["a.csv", "b.csv"] [("a.csv", false)] none
  exact ⟨hfa, hfb, hnone, h.2.2.1 "b.csv" hfb hnone,
    (visibility_dict_invariants ["a.csv", "b.csv"] [("a.csv", false)]
      (some "a.csv")).2.2.2.1 "a.csv" hfa,
    (visibility_dict_invariants ["a.csv", "b.csv"] [("a.csv", false)]
      (some "a.csv")).2.2.2.2 "a.csv" "b.csv" hfa hfb (by decide)⟩

end TGFTIR
